import Mathlib

/-!
Verification of the icon background-removal pipeline
(`src/utils/backgroundRemoval.ts`, `src/components/EdgeLab.tsx`, and the
batch orchestrator component).

The JavaScript `ImageData` raster is modelled as a list of RGBA pixels
with natural-number channels; JavaScript floating-point arithmetic is
modelled by exact rationals; `Math.round` is `round` (floor of x + 1/2,
which is how `Math.round` behaves on non-negative values), and the
`Uint8ClampedArray` store conversion (clamp to [0,255], ties to even)
is modelled explicitly.
-/

/-- One RGBA pixel: four 8-bit channels of a JS `ImageData.data` buffer
(the model does not force channels below 256; theorems that need the
byte bound take it as a hypothesis). -/
structure Pixel where
  r : ℕ
  g : ℕ
  b : ℕ
  a : ℕ
  deriving DecidableEq, Repr

/-- The all-zero pixel, used as the out-of-range read default. -/
def defPixel : Pixel := ⟨0, 0, 0, 0⟩

/-- A JS `ImageData`: width, height and the flat row-major pixel list
(the JS invariant is `data.length = width*height*4` bytes, i.e. one
list entry per pixel here). -/
structure ImageData where
  width : ℕ
  height : ℕ
  data : List Pixel
  deriving DecidableEq, Repr

/-- An RGB color triple, as produced by `hexToRgb` / `detectBackgroundColor`. -/
structure Rgb where
  r : ℕ
  g : ℕ
  b : ℕ
  deriving DecidableEq, Repr

/-- Clamp an integer into the byte range [0,255], as a `Uint8ClampedArray`
store does with an integral value. -/
def clampByte (n : ℤ) : ℕ := (min 255 (max 0 n)).toNat

/-- Round a rational to the nearest integer, ties to even — the ECMAScript
`ToUint8Clamp` rounding mode used when a fractional number is stored into
a `Uint8ClampedArray`. -/
def roundTiesEven (q : ℚ) : ℤ :=
  let n := ⌊q⌋
  let f := q - n
  if f < 1/2 then n
  else if 1/2 < f then n + 1
  else if Even n then n else n + 1

/-- The full ECMAScript `ToUint8Clamp` conversion: clamp into [0,255]
then round ties-to-even. -/
def toU8Clamp (q : ℚ) : ℕ :=
  if q ≤ 0 then 0
  else if 255 ≤ q then 255
  else (roundTiesEven q).toNat

/-- Indexed map over a list, carrying the running flat index. -/
def mapIdxFrom (f : ℕ → Pixel → Pixel) : ℕ → List Pixel → List Pixel
  | _, [] => []
  | k, p :: ps => f k p :: mapIdxFrom f (k + 1) ps

theorem get?_mapIdxFrom (f : ℕ → Pixel → Pixel) :
    ∀ (l : List Pixel) (k i : ℕ),
      (mapIdxFrom f k l).get? i = (l.get? i).map (f (k + i))
  | [], _, _ => by simp [mapIdxFrom]
  | p :: ps, k, 0 => by simp [mapIdxFrom]
  | p :: ps, k, i + 1 => by
      simpa [mapIdxFrom, Nat.add_assoc, Nat.add_comm 1 i] using
        get?_mapIdxFrom f ps (k + 1) i

theorem length_mapIdxFrom (f : ℕ → Pixel → Pixel) :
    ∀ (l : List Pixel) (k : ℕ), (mapIdxFrom f k l).length = l.length
  | [], _ => rfl
  | _ :: ps, k => by simp [mapIdxFrom, length_mapIdxFrom f ps (k + 1)]

/-! ## Reference-mode matting: `subtractBackground` -/

/-- Per-pixel body of the `subtractBackground` loop
(`backgroundRemoval.ts`, lines 143–178): `p` is the image pixel and
`b` the reference pixel at the same flat index; `thr` is the 1–100
threshold option. -/
def mattePixel (thr : ℚ) (p b : Pixel) : Pixel :=
  if 0 < b.a then
    let rDiff : ℤ := |(p.r : ℤ) - (b.r : ℤ)|
    let gDiff : ℤ := |(p.g : ℤ) - (b.g : ℤ)|
    let bDiff : ℤ := |(p.b : ℤ) - (b.b : ℤ)|
    let maxDiff : ℚ := ((max (max rDiff gDiff) bDiff : ℤ) : ℚ)
    let workingThreshold : ℚ := thr * 2.55
    let alphaFactor : ℚ := (b.a : ℚ) / 255
    let effectiveThreshold : ℚ := workingThreshold * alphaFactor
    if maxDiff < effectiveThreshold then { p with a := 0 }
    else if maxDiff < effectiveThreshold * 1.5 then
      let fadeout : ℚ := (maxDiff - effectiveThreshold) / (effectiveThreshold * 0.5)
      { p with a := clampByte (round ((p.a : ℚ) * fadeout)) }
    else p
  else p

/-- The `subtractBackground` loop over the flat pixel arrays: the loop
index runs over the image data; a reference read past the end of the
reference array yields JS `undefined`, whose alpha test `bgAlpha > 0`
is false, so such pixels are untouched. -/
def subtractBackgroundData (thr : ℚ) : List Pixel → List Pixel → List Pixel
  | [], _ => []
  | ps, [] => ps
  | p :: ps, b :: bs => mattePixel thr p b :: subtractBackgroundData thr ps bs

/-- `subtractBackground(imageData, bgData, threshold)` from
`backgroundRemoval.ts` lines 132–180: mutates only the alpha channel of
the image buffer, driven by the reference buffer at equal flat indices. -/
def subtractBackground (img bg : ImageData) (thr : ℚ) : ImageData :=
  { img with data := subtractBackgroundData thr img.data bg.data }

theorem get?_subtractBackgroundData (thr : ℚ) :
    ∀ (ps bs : List Pixel) (i : ℕ),
      (subtractBackgroundData thr ps bs).get? i =
        match ps.get? i, bs.get? i with
        | some p, some b => some (mattePixel thr p b)
        | some p, none => some p
        | none, _ => none
  | [], _, _ => by
      simp [subtractBackgroundData]
  | p :: ps, [], i => by
      simp only [subtractBackgroundData]
      cases h : (p :: ps).get? i <;> simp [h]
  | p :: ps, b :: bs, 0 => by simp [subtractBackgroundData]
  | p :: ps, b :: bs, i + 1 => by
      simpa [subtractBackgroundData] using get?_subtractBackgroundData thr ps bs i

lemma clampByte_eq_zero_iff (n : ℤ) : clampByte n = 0 ↔ n ≤ 0 := by
  simp only [clampByte]
  omega

lemma clampByte_of_bounds (n : ℤ) (h0 : 0 ≤ n) (h1 : n ≤ 255) :
    clampByte n = n.toNat := by
  simp only [clampByte]
  omega

lemma round_nonneg_of_nonneg (q : ℚ) (h : 0 ≤ q) : 0 ≤ round q := by
  rw [round_eq]
  exact Int.le_floor.mpr (by push_cast; linarith)

lemma round_le_255_of_lt (q : ℚ) (h : q < 255) : round q ≤ 255 := by
  rw [round_eq]
  have : ⌊q + 1 / 2⌋ ≤ ⌊(511 : ℚ) / 2⌋ := Int.floor_le_floor (by linarith)
  have h511 : ⌊(511 : ℚ) / 2⌋ = 255 := Int.floor_eq_iff.mpr (by norm_num)
  omega

/-- Claim C1: in reference-mode matting, at every pixel where the reference
alpha is positive (buffers of equal dimensions), with
`maxDiff = max(|R_img-R_ref|, |G_img-G_ref|, |B_img-B_ref|)` and
`effectiveThreshold = (threshold * 2.55) * (refAlpha/255)`, the output alpha
is 0 when `maxDiff < effectiveThreshold`, is
`round(oldAlpha * (maxDiff - effectiveThreshold) / (effectiveThreshold * 0.5))`
when `effectiveThreshold ≤ maxDiff < effectiveThreshold * 1.5`, and the
pixel is unchanged otherwise. -/
theorem subtractBackground_reference_mode_formula
    (img bg : ImageData) (thr : ℚ) (x y : ℕ) (p b : Pixel)
    (_hw : img.width = bg.width) (_hh : img.height = bg.height)
    (hp : img.data.get? (y * img.width + x) = some p)
    (hb : bg.data.get? (y * img.width + x) = some b)
    (hba : 0 < b.a) (hpa : p.a ≤ 255) :
    (subtractBackground img bg thr).data.get? (y * img.width + x) =
      some (
        let maxDiff : ℚ :=
          ((max (max |(p.r : ℤ) - (b.r : ℤ)| |(p.g : ℤ) - (b.g : ℤ)|)
              |(p.b : ℤ) - (b.b : ℤ)| : ℤ) : ℚ)
        let effectiveThreshold : ℚ := (thr * 2.55) * ((b.a : ℚ) / 255)
        if maxDiff < effectiveThreshold then { p with a := 0 }
        else if maxDiff < effectiveThreshold * 1.5 then
          { p with a := (round ((p.a : ℚ) *
              ((maxDiff - effectiveThreshold) / (effectiveThreshold * 0.5)))).toNat }
        else p) := by
  rw [subtractBackground, get?_subtractBackgroundData, hp, hb]
  simp only [mattePixel, hba, if_pos]
  set d : ℚ :=
    ((max (max |(p.r : ℤ) - (b.r : ℤ)| |(p.g : ℤ) - (b.g : ℤ)|)
        |(p.b : ℤ) - (b.b : ℤ)| : ℤ) : ℚ) with hd
  set e : ℚ := thr * 2.55 * ((b.a : ℚ) / 255) with he
  have hd0 : 0 ≤ d := by
    rw [hd]
    positivity
  split_ifs with h1 h2
  · rfl
  · -- transition band: the clamped store equals the plain rounded value
    have hepos : 0 < e := by
      by_contra hle
      push_neg at hle
      nlinarith
  -- fade factor is in [0, 1)
    have hf0 : 0 ≤ (d - e) / (e * 0.5) := by
      apply div_nonneg (by linarith)
      nlinarith
    have hf1 : (d - e) / (e * 0.5) < 1 := by
      rw [div_lt_one (by nlinarith)]
      nlinarith
    have hval0 : (0 : ℚ) ≤ (p.a : ℚ) * ((d - e) / (e * 0.5)) := by positivity
    have hval1 : (p.a : ℚ) * ((d - e) / (e * 0.5)) < 255 := by
      rcases Nat.eq_zero_or_pos p.a with hz | hpos
      · rw [hz]; norm_num
      · calc (p.a : ℚ) * ((d - e) / (e * 0.5)) < (p.a : ℚ) * 1 := by
              apply mul_lt_mul_of_pos_left hf1
              exact_mod_cast hpos
          _ ≤ 255 := by
              rw [mul_one]
              exact_mod_cast hpa
    rw [clampByte_of_bounds _ (round_nonneg_of_nonneg _ hval0)
      (round_le_255_of_lt _ hval1)]
  · rfl

/-- Concrete instantiation of claim C1: a 1×1 image close in color to a
fully-opaque 1×1 reference is fully erased at threshold 30. -/
theorem subtractBackground_reference_mode_formula_witness :
    (subtractBackground ⟨1, 1, [⟨110, 100, 100, 200⟩]⟩
        ⟨1, 1, [⟨100, 100, 100, 255⟩]⟩ 30).data.get? 0 =
      some ⟨110, 100, 100, 0⟩ :=
  (subtractBackground_reference_mode_formula
    ⟨1, 1, [⟨110, 100, 100, 200⟩]⟩ ⟨1, 1, [⟨100, 100, 100, 255⟩]⟩
    30 0 0 ⟨110, 100, 100, 200⟩ ⟨100, 100, 100, 255⟩
    rfl rfl rfl rfl (by decide) (by decide)).trans (by norm_num)

/-- Claim C3, counterexample: with a 1×2 image and a 2×1 reference, the
image position (x,y) = (0,1) lies outside the set of positions present in
both buffers (the reference has height 1), yet matting changes that pixel:
the loop runs over flat indices, so image flat index 1 (= position (0,1))
is compared against reference flat index 1 (= position (1,0)). -/
theorem subtractBackground_overlap_counterexample :
    (⟨1, 2, [⟨0, 0, 0, 255⟩, ⟨100, 100, 100, 255⟩]⟩ : ImageData).height = 2 ∧
    (⟨2, 1, [⟨0, 0, 0, 255⟩, ⟨100, 100, 100, 255⟩]⟩ : ImageData).height = 1 ∧
    (subtractBackground ⟨1, 2, [⟨0, 0, 0, 255⟩, ⟨100, 100, 100, 255⟩]⟩
        ⟨2, 1, [⟨0, 0, 0, 255⟩, ⟨100, 100, 100, 255⟩]⟩ 30).data.get? 1 ≠
      (⟨1, 2, [⟨0, 0, 0, 255⟩, ⟨100, 100, 100, 255⟩]⟩ : ImageData).data.get? 1 := by
  refine ⟨rfl, rfl, ?_⟩
  norm_num [subtractBackground, subtractBackgroundData, mattePixel]

/-- Claim C3 as amended: when the dimensions differ, reference-mode matting
pairs pixels by flat (row-major) array index, not by (x,y) position: the
image pixel at flat index i is matted against the reference pixel at flat
index i whenever the latter exists, and image pixels whose flat index has
no reference counterpart are left unchanged. (This coincides with (x,y)
correspondence exactly when the two widths are equal.) -/
theorem subtractBackground_flat_index_overlap (img bg : ImageData) (thr : ℚ) (i : ℕ) :
    (subtractBackground img bg thr).data.get? i =
      match img.data.get? i, bg.data.get? i with
      | some p, some b => some (mattePixel thr p b)
      | some p, none => some p
      | none, _ => none := by
  rw [subtractBackground]
  exact get?_subtractBackgroundData thr img.data bg.data i

/-- Number of fully transparent pixels of a buffer. -/
def zeroAlphaCount (img : ImageData) : ℕ :=
  img.data.countP (fun p => p.a == 0)

lemma mattePixel_zero_mono (p b : Pixel) (t1 t2 : ℚ)
    (h1 : 1 ≤ t1) (h12 : t1 ≤ t2)
    (hz : (mattePixel t1 p b).a = 0) : (mattePixel t2 p b).a = 0 := by
  by_cases hba : 0 < b.a
  · simp only [mattePixel, hba, if_pos] at hz ⊢
    set d : ℚ :=
      ((max (max |(p.r : ℤ) - (b.r : ℤ)| |(p.g : ℤ) - (b.g : ℤ)|)
          |(p.b : ℤ) - (b.b : ℤ)| : ℤ) : ℚ) with hd
    have hd0 : 0 ≤ d := by
      rw [hd]; positivity
    set e1 : ℚ := t1 * 2.55 * ((b.a : ℚ) / 255) with he1
    set e2 : ℚ := t2 * 2.55 * ((b.a : ℚ) / 255) with he2
    have hbapos : (0 : ℚ) < (b.a : ℚ) := by exact_mod_cast hba
    have he1pos : 0 < e1 := by
      rw [he1]; positivity
    have he12 : e1 ≤ e2 := by
      rw [he1, he2]
      have : (0 : ℚ) ≤ (b.a : ℚ) / 255 := by positivity
      nlinarith
    split_ifs with g1 g2
    · rfl
    · -- transition band at t2
      have he2d : e2 ≤ d := le_of_not_lt g1
      -- what happened at t1
      by_cases f1 : d < e1
      · exact absurd (lt_of_lt_of_le f1 he12) g1
      by_cases f2 : d < e1 * 1.5
      · -- fade at t1 as well: the t1 fade factor dominates the t2 one
        rw [if_neg f1, if_pos f2] at hz
        have hr1 : round ((p.a : ℚ) * ((d - e1) / (e1 * 0.5))) ≤ 0 :=
          (clampByte_eq_zero_iff _).mp hz
        have hf1nn : 0 ≤ (d - e1) / (e1 * 0.5) := by
          apply div_nonneg (by linarith [le_of_not_lt f1])
          nlinarith
        have hv1nn : (0 : ℚ) ≤ (p.a : ℚ) * ((d - e1) / (e1 * 0.5)) := by positivity
        have hr1z : round ((p.a : ℚ) * ((d - e1) / (e1 * 0.5))) = 0 :=
          le_antisymm hr1 (round_nonneg_of_nonneg _ hv1nn)
        have hv1lt : (p.a : ℚ) * ((d - e1) / (e1 * 0.5)) < 1 / 2 := by
          have := round_eq_zero_iff.mp hr1z
          exact this.2
        have he2pos : 0 < e2 := lt_of_lt_of_le he1pos he12
        have hfle : (d - e2) / (e2 * 0.5) ≤ (d - e1) / (e1 * 0.5) := by
          have hq1 : (d - e1) / (e1 * 0.5) = 2 * (d / e1) - 2 := by
            field_simp
            ring
          have hq2 : (d - e2) / (e2 * 0.5) = 2 * (d / e2) - 2 := by
            field_simp
            ring
          rw [hq1, hq2]
          have : d / e2 ≤ d / e1 := div_le_div_of_nonneg_left hd0 he1pos he12
          linarith
        have hf2nn : 0 ≤ (d - e2) / (e2 * 0.5) := by
          apply div_nonneg (by linarith)
          nlinarith
        have hv2nn : (0 : ℚ) ≤ (p.a : ℚ) * ((d - e2) / (e2 * 0.5)) := by positivity
        have hv2lt : (p.a : ℚ) * ((d - e2) / (e2 * 0.5)) < 1 / 2 := by
          have hmul : (p.a : ℚ) * ((d - e2) / (e2 * 0.5)) ≤
              (p.a : ℚ) * ((d - e1) / (e1 * 0.5)) := by
            apply mul_le_mul_of_nonneg_left hfle
            positivity
          linarith
        have : round ((p.a : ℚ) * ((d - e2) / (e2 * 0.5))) = 0 :=
          round_eq_zero_iff.mpr ⟨by linarith, hv2lt⟩
        simp [this, clampByte]
      · -- untouched at t1, so the old alpha was already 0
        rw [if_neg f1, if_neg f2] at hz
        simp only [hz, Nat.cast_zero, zero_mul]
        simp [round_eq, clampByte]
        norm_num
    · -- untouched at t2: show the t1 branch was also untouched
      have he2d : e2 ≤ d := le_of_not_lt g1
      have he2d' : e2 * 1.5 ≤ d := le_of_not_lt g2
      by_cases f1 : d < e1
      · exact absurd (lt_of_lt_of_le f1 he12) g1
      by_cases f2 : d < e1 * 1.5
      · exfalso
        have : e1 * 1.5 ≤ e2 * 1.5 := by nlinarith
        linarith
      · rw [if_neg f1, if_neg f2] at hz
        exact hz
  · simp only [mattePixel, hba, if_neg, if_false] at hz ⊢
    exact hz

lemma subtractBackgroundData_count_mono (t1 t2 : ℚ)
    (h1 : 1 ≤ t1) (h12 : t1 ≤ t2) :
    ∀ (ps bs : List Pixel),
      (subtractBackgroundData t1 ps bs).countP (fun p => p.a == 0) ≤
        (subtractBackgroundData t2 ps bs).countP (fun p => p.a == 0)
  | [], _ => by simp [subtractBackgroundData]
  | p :: ps, [] => le_refl _
  | p :: ps, b :: bs => by
    simp only [subtractBackgroundData, List.countP_cons]
    have htail := subtractBackgroundData_count_mono t1 t2 h1 h12 ps bs
    have hhead : (if (mattePixel t1 p b).a == 0 then 1 else 0) ≤
        (if (mattePixel t2 p b).a == 0 then 1 else 0) := by
      by_cases hz : (mattePixel t1 p b).a = 0
      · have := mattePixel_zero_mono p b t1 t2 h1 h12 hz
        simp [hz, this]
      · simp [hz]
    omega

/-- Claim C4: reference-mode matting is monotone in the threshold — for a
fixed image and reference and thresholds `t1 ≤ t2` in [1,100], the number
of fully transparent pixels after matting with `t1` is at most the number
after matting with `t2`. -/
theorem subtractBackground_threshold_monotone
    (img bg : ImageData) (t1 t2 : ℚ)
    (h1 : 1 ≤ t1) (h12 : t1 ≤ t2) (_h100 : t2 ≤ 100) :
    zeroAlphaCount (subtractBackground img bg t1) ≤
      zeroAlphaCount (subtractBackground img bg t2) := by
  simp only [zeroAlphaCount, subtractBackground]
  exact subtractBackgroundData_count_mono t1 t2 h1 h12 img.data bg.data

/-- Concrete instantiation of claim C4 at thresholds 10 ≤ 20. -/
theorem subtractBackground_threshold_monotone_witness :
    (1 : ℚ) ≤ 10 ∧ (10 : ℚ) ≤ 20 ∧ (20 : ℚ) ≤ 100 ∧
    zeroAlphaCount (subtractBackground ⟨1, 1, [⟨110, 100, 100, 200⟩]⟩
        ⟨1, 1, [⟨100, 100, 100, 255⟩]⟩ 10) ≤
      zeroAlphaCount (subtractBackground ⟨1, 1, [⟨110, 100, 100, 200⟩]⟩
        ⟨1, 1, [⟨100, 100, 100, 255⟩]⟩ 20) :=
  ⟨by norm_num, by norm_num, by norm_num,
    subtractBackground_threshold_monotone
      ⟨1, 1, [⟨110, 100, 100, 200⟩]⟩ ⟨1, 1, [⟨100, 100, 100, 255⟩]⟩
      10 20 (by norm_num) (by norm_num) (by norm_num)⟩

/-- Claim C6: a reference pixel with alpha 0 never causes the corresponding
image pixel to be touched — all of R, G, B and A are unchanged, regardless
of color similarity. -/
theorem subtractBackground_zero_ref_alpha_frame
    (img bg : ImageData) (thr : ℚ) (i : ℕ) (p b : Pixel)
    (hp : img.data.get? i = some p) (hb : bg.data.get? i = some b)
    (hba : b.a = 0) :
    (subtractBackground img bg thr).data.get? i = some p := by
  rw [subtractBackground, get?_subtractBackgroundData, hp, hb]
  simp [mattePixel, hba]

/-- Concrete instantiation of claim C6: a fully transparent reference pixel
leaves an identically-colored image pixel untouched. -/
theorem subtractBackground_zero_ref_alpha_frame_witness :
    (subtractBackground ⟨1, 1, [⟨100, 100, 100, 255⟩]⟩
        ⟨1, 1, [⟨100, 100, 100, 0⟩]⟩ 30).data.get? 0 =
      some ⟨100, 100, 100, 255⟩ :=
  subtractBackground_zero_ref_alpha_frame
    ⟨1, 1, [⟨100, 100, 100, 255⟩]⟩ ⟨1, 1, [⟨100, 100, 100, 0⟩]⟩ 30 0
    ⟨100, 100, 100, 255⟩ ⟨100, 100, 100, 0⟩ rfl rfl rfl

/-! ## Edge-refinement filters -/

/-- Bounds-checked pixel read at signed coordinates; out-of-bounds reads
yield the all-zero pixel (only ever used where the source reads in
bounds). -/
def pixelAt (img : ImageData) (x y : ℤ) : Pixel :=
  if 0 ≤ x ∧ x < (img.width : ℤ) ∧ 0 ≤ y ∧ y < (img.height : ℤ) then
    img.data.getD (y.toNat * img.width + x.toNat) defPixel
  else defPixel

/-- Alpha channel at signed coordinates. -/
def alphaAt (img : ImageData) (x y : ℤ) : ℕ := (pixelAt img x y).a

/-- The 8 immediate neighbor offsets, in the source's scan order
(`dy` outer, `dx` inner, skipping (0,0)); pairs are (dx, dy). -/
def offsets8 : List (ℤ × ℤ) :=
  [(-1, -1), (0, -1), (1, -1), (-1, 0), (1, 0), (-1, 1), (0, 1), (1, 1)]

/-- The full 3×3 neighborhood offsets including the center. -/
def offsets9 : List (ℤ × ℤ) :=
  [(-1, -1), (0, -1), (1, -1), (-1, 0), (0, 0), (1, 0), (-1, 1), (0, 1), (1, 1)]

/-- Does some 8-neighbor of (x,y) have alpha exactly 0? -/
def hasTransparentNeighbor (img : ImageData) (x y : ℕ) : Bool :=
  offsets8.any (fun o => alphaAt img ((x : ℤ) + o.1) ((y : ℤ) + o.2) == 0)

/-- Sum of the 9 alpha values of the 3×3 neighborhood of (x,y). -/
def neighborAlphaSum (img : ImageData) (x y : ℕ) : ℕ :=
  (offsets9.map (fun o => alphaAt img ((x : ℤ) + o.1) ((y : ℤ) + o.2))).sum

/-- `smoothEdges` (`backgroundRemoval.ts` lines 252–282): for every interior
pixel whose snapshot alpha is strictly between 0 and 255, replace its alpha
by the rounded mean of the 9 snapshot alphas of its 3×3 neighborhood. -/
def smoothEdges (img : ImageData) : ImageData :=
  { img with data := mapIdxFrom (fun i p =>
      let x := i % img.width
      let y := i / img.width
      if 1 ≤ x ∧ x + 1 < img.width ∧ 1 ≤ y ∧ y + 1 < img.height ∧
          0 < p.a ∧ p.a < 255 then
        { p with a := clampByte (round ((neighborAlphaSum img x y : ℚ) / 9)) }
      else p) 0 img.data }

/-- The "outer edge" classification used by `removeLightEdgeArtifacts` and
`removeLiquidGlassOutline` (phase 1 of each): an interior pixel with
positive alpha having a fully transparent 8-neighbor. -/
def isOuterEdge (img : ImageData) (x y : ℕ) : Bool :=
  decide (1 ≤ x) && decide (x + 1 < img.width) &&
  decide (1 ≤ y) && decide (y + 1 < img.height) &&
  decide (0 < alphaAt img x y) && hasTransparentNeighbor img x y

/-- `removeLightEdgeArtifacts` (`backgroundRemoval.ts` lines 302–368):
on outer-edge pixels with `0 < alpha < 200` and brightness
`(R+G+B)/3 > 180`, reduce alpha by `brightness - 128` (floored at 0). -/
def removeLightEdgeArtifacts (img : ImageData) : ImageData :=
  { img with data := mapIdxFrom (fun i p =>
      let x := i % img.width
      let y := i / img.width
      if isOuterEdge img x y then
        if 0 < p.a ∧ p.a < 200 then
          let brightness : ℚ := ((p.r + p.g + p.b : ℕ) : ℚ) / 3
          if 180 < brightness then
            { p with a := toU8Clamp (max 0 ((p.a : ℚ) - (brightness - 128))) }
          else p
        else p
      else p) 0 img.data }

/-- One erosion pass (`erodeEdges` inner loop, `backgroundRemoval.ts`
lines 385–416): an interior pixel with positive snapshot alpha and a fully
transparent snapshot 8-neighbor becomes transparent. -/
def erodePass (img : ImageData) : ImageData :=
  { img with data := mapIdxFrom (fun i p =>
      let x := i % img.width
      let y := i / img.width
      if 1 ≤ x ∧ x + 1 < img.width ∧ 1 ≤ y ∧ y + 1 < img.height ∧
          0 < p.a ∧ hasTransparentNeighbor img x y then
        { p with a := 0 }
      else p) 0 img.data }

/-- `erodeEdges(imageData, pixels)` (`backgroundRemoval.ts` lines 373–422):
`pixels` sequential erosion passes on the alpha channel. -/
def erodeEdges (img : ImageData) (pixels : ℕ) : ImageData :=
  erodePass^[pixels] img

/-- Count of 8-neighbors (in bounds) with alpha above 200, read from the
current, partially mutated buffer `d` — `aggressiveEdgeCleanup` takes no
snapshot. -/
def opaqueNeighborCount (w h : ℕ) (d : List Pixel) (x y : ℕ) : ℕ :=
  (offsets8.filter (fun o =>
    let nx := (x : ℤ) + o.1
    let ny := (y : ℤ) + o.2
    decide (0 ≤ nx) && decide (nx < (w : ℤ)) &&
    decide (0 ≤ ny) && decide (ny < (h : ℤ)) &&
    decide (200 < (d.getD (ny.toNat * w + nx.toNat) defPixel).a))).length

/-- One scan step of `aggressiveEdgeCleanup` (`backgroundRemoval.ts`
lines 432–468) at flat index `i` of the evolving buffer `d`: a pixel with
`0 < alpha < 128`, brightness above 150 and fewer than 3 opaque neighbors
is fully cleared. -/
def aggStep (w h : ℕ) (d : List Pixel) (i : ℕ) : List Pixel :=
  let p := d.getD i defPixel
  if 0 < p.a ∧ p.a < 128 then
    let x := i % w
    let y := i / w
    let opaqueCount := opaqueNeighborCount w h d x y
    let brightness : ℚ := ((p.r + p.g + p.b : ℕ) : ℚ) / 3
    if (opaqueCount = 0 ∨ opaqueCount < 3) ∧ 150 < brightness then
      d.set i { p with a := 0 }
    else d
  else d

/-- `aggressiveEdgeCleanup` (`backgroundRemoval.ts` lines 427–470):
a sequential row-major scan mutating the buffer in place (no snapshot). -/
def aggressiveEdgeCleanup (img : ImageData) : ImageData :=
  { img with
    data :=
      (List.range (img.width * img.height)).foldl
        (aggStep img.width img.height) img.data }

/-- The square of offsets of Chebyshev radius `w`, in the source's scan
order (`dy` outer, `dx` inner); pairs are (dx, dy). -/
def offsetsSquare (w : ℕ) : List (ℤ × ℤ) :=
  (List.range (2 * w + 1)).flatMap (fun dy =>
    (List.range (2 * w + 1)).map (fun dx => ((dx : ℤ) - w, (dy : ℤ) - w)))

/-- Phase 2 of `removeLiquidGlassOutline`: is (x,y) within Chebyshev
distance `w` of an outer-edge pixel? -/
def inProcessZone (img : ImageData) (w : ℕ) (x y : ℕ) : Bool :=
  (offsetsSquare w).any (fun o =>
    let nx := (x : ℤ) + o.1
    let ny := (y : ℤ) + o.2
    decide (0 ≤ nx) && decide (nx < (img.width : ℤ)) &&
    decide (0 ≤ ny) && decide (ny < (img.height : ℤ)) &&
    isOuterEdge img nx.toNat ny.toNat)

/-- `removeLiquidGlassOutline(imageData, outlineWidth, brightThreshold)`
(`backgroundRemoval.ts` lines 477–576): within the process zone, attenuate
bright pixels' alpha; the second conditional (bright semi-opaque pixels,
`alpha < 180`, brightness above `brightThreshold - 20`) overwrites the
first one's store using the alpha read before either store. -/
def removeLiquidGlassOutline (img : ImageData) (outlineWidth : ℕ)
    (brightThreshold : ℚ) : ImageData :=
  { img with data := mapIdxFrom (fun i p =>
      let x := i % img.width
      let y := i / img.width
      if x < img.width ∧ y < img.height ∧ inProcessZone img outlineWidth x y then
        if p.a = 0 then p
        else
          let brightness : ℚ := ((p.r + p.g + p.b : ℕ) : ℚ) / 3
          if 0 < p.a ∧ p.a < 180 ∧ brightThreshold - 20 < brightness then
            { p with a := (max 0 ⌊(p.a : ℚ) * 0.3⌋).toNat }
          else if brightThreshold < brightness then
            let brightFactor := (brightness - brightThreshold) / (255 - brightThreshold)
            let alphaReduction := brightFactor * (p.a : ℚ)
            { p with a := toU8Clamp (max 0 ((p.a : ℚ) - alphaReduction)) }
          else p
      else p) 0 img.data }

/-! ## Claim C5: erosion on a fully opaque 5×5 square -/

/-- A 5×5 buffer of fully opaque red pixels. -/
def allOpaque5 : ImageData := ⟨5, 5, List.replicate 25 ⟨255, 0, 0, 255⟩⟩

/-- Claim C5, counterexample: two erosion passes on the fully opaque 5×5
square leave the corner pixel (0,0) fully opaque — not only the center —
because a pass only clears pixels that have a fully transparent in-bounds
8-neighbor (and never examines border pixels), and a fully opaque buffer
has no transparent pixel at all. -/
theorem erodeEdges_scenarioC_counterexample :
    alphaAt (erodeEdges allOpaque5 2) 0 0 = 255 := by decide

/-- Claim C5 as amended: applying erosion with `erodePixels = 2` to the
fully opaque 5×5 square is a no-op — the buffer is returned unchanged with
all 25 pixels still opaque (erosion only shrinks an opaque region along
its boundary with fully transparent pixels, of which there are none). -/
theorem erodeEdges_allOpaque5_noop :
    erodeEdges allOpaque5 2 = allOpaque5 := by decide

/-! ## Claim C2: the common filter invariant -/

/-- 3×3 buffer: semi-transparent center surrounded by opaque pixels. -/
def bufSmooth : ImageData :=
  ⟨3, 3, [⟨0, 0, 0, 255⟩, ⟨0, 0, 0, 255⟩, ⟨0, 0, 0, 255⟩,
          ⟨0, 0, 0, 255⟩, ⟨0, 0, 0, 100⟩, ⟨0, 0, 0, 255⟩,
          ⟨0, 0, 0, 255⟩, ⟨0, 0, 0, 255⟩, ⟨0, 0, 0, 255⟩]⟩

/-- 3×3 buffer: bright low-alpha center surrounded by dark pixels of
alpha 150 (no fully transparent pixel anywhere). -/
def bufAgg : ImageData :=
  ⟨3, 3, [⟨0, 0, 0, 150⟩, ⟨0, 0, 0, 150⟩, ⟨0, 0, 0, 150⟩,
          ⟨0, 0, 0, 150⟩, ⟨200, 200, 200, 50⟩, ⟨0, 0, 0, 150⟩,
          ⟨0, 0, 0, 150⟩, ⟨0, 0, 0, 150⟩, ⟨0, 0, 0, 150⟩]⟩

/-- 5×5 fully opaque buffer with a single fully transparent pixel
at (2,0). -/
def holed5 : ImageData :=
  ⟨5, 5, (List.replicate 25 ⟨255, 0, 0, 255⟩).set 2 ⟨255, 0, 0, 0⟩⟩

/-- 3×5 pure-white buffer with a single fully transparent pixel
at (1,0). -/
def bufGlass : ImageData :=
  ⟨3, 5, (List.replicate 15 ⟨255, 255, 255, 255⟩).set 1 ⟨255, 255, 255, 0⟩⟩

/-- Claim C2, counterexample: four of the five edge filters modify pixels
all of whose 8 immediate neighbors have nonzero alpha. Edge smoothing
averages any partially transparent pixel (here the center of `bufSmooth`
goes from alpha 100 to 238); aggressive edge cleanup clears a bright
low-alpha pixel whose neighbors all have alpha 150; a second erosion pass
clears the pixel (2,2) of `holed5`, at Chebyshev distance 2 from the only
transparent pixel; liquid-glass removal attenuates a pure-white pixel at
Chebyshev distance 2 from the outer edge (alpha 255 becomes 0). -/
theorem edge_filter_interior_counterexample :
    ((∀ o ∈ offsets8, alphaAt bufSmooth (1 + o.1) (1 + o.2) ≠ 0) ∧
      alphaAt bufSmooth 1 1 = 100 ∧
      alphaAt (smoothEdges bufSmooth) 1 1 = 238) ∧
    ((∀ o ∈ offsets8, alphaAt bufAgg (1 + o.1) (1 + o.2) ≠ 0) ∧
      alphaAt bufAgg 1 1 = 50 ∧
      alphaAt (aggressiveEdgeCleanup bufAgg) 1 1 = 0) ∧
    ((∀ o ∈ offsets8, alphaAt holed5 (2 + o.1) (2 + o.2) ≠ 0) ∧
      alphaAt holed5 2 2 = 255 ∧
      alphaAt (erodeEdges holed5 2) 2 2 = 0) ∧
    ((∀ o ∈ offsets8, alphaAt bufGlass (1 + o.1) (3 + o.2) ≠ 0) ∧
      alphaAt bufGlass 1 3 = 255 ∧
      alphaAt (removeLiquidGlassOutline bufGlass 2 200) 1 3 = 0) := by
  refine ⟨⟨by decide, by decide, ?_⟩, ⟨by decide, by decide, ?_⟩,
    ⟨by decide, by decide, by decide⟩, ⟨by decide, by decide, ?_⟩⟩
  · -- smoothing: the center becomes round(2140/9) = 238
    have h1 : alphaAt (smoothEdges bufSmooth) 1 1 =
        clampByte (round ((2140 : ℚ) / 9)) := rfl
    have h2 : round ((2140 : ℚ) / 9) = 238 := by
      rw [round_eq, show (2140 : ℚ) / 9 + 1 / 2 = 4289 / 18 by norm_num]
      exact Int.floor_eq_iff.mpr (by norm_num)
    rw [h1, h2]
    rfl
  · -- aggressive cleanup: the fold clears exactly the center pixel
    have hset : aggStep 3 3 bufAgg.data 4 =
        bufAgg.data.set 4 ⟨200, 200, 200, 0⟩ := by
      have hc : opaqueNeighborCount 3 3 bufAgg.data (4 % 3) (4 / 3) = 0 := by
        decide
      simp only [aggStep, hc,
        show bufAgg.data.getD 4 defPixel = ⟨200, 200, 200, 50⟩ from rfl]
      norm_num
    have hfold : (aggressiveEdgeCleanup bufAgg).data =
        bufAgg.data.set 4 ⟨200, 200, 200, 0⟩ := by
      show (List.range 9).foldl (aggStep 3 3) bufAgg.data = _
      rw [show List.range 9 = [0, 1, 2, 3, 4, 5, 6, 7, 8] from rfl]
      simp only [List.foldl_cons, List.foldl_nil]
      rw [show aggStep 3 3 bufAgg.data 0 = bufAgg.data from rfl,
        show aggStep 3 3 bufAgg.data 1 = bufAgg.data from rfl,
        show aggStep 3 3 bufAgg.data 2 = bufAgg.data from rfl,
        show aggStep 3 3 bufAgg.data 3 = bufAgg.data from rfl, hset,
        show aggStep 3 3 (bufAgg.data.set 4 ⟨200, 200, 200, 0⟩) 5 =
          bufAgg.data.set 4 ⟨200, 200, 200, 0⟩ from rfl,
        show aggStep 3 3 (bufAgg.data.set 4 ⟨200, 200, 200, 0⟩) 6 =
          bufAgg.data.set 4 ⟨200, 200, 200, 0⟩ from rfl,
        show aggStep 3 3 (bufAgg.data.set 4 ⟨200, 200, 200, 0⟩) 7 =
          bufAgg.data.set 4 ⟨200, 200, 200, 0⟩ from rfl,
        show aggStep 3 3 (bufAgg.data.set 4 ⟨200, 200, 200, 0⟩) 8 =
          bufAgg.data.set 4 ⟨200, 200, 200, 0⟩ from rfl]
    show ((aggressiveEdgeCleanup bufAgg).data.getD 4 defPixel).a = 0
    rw [hfold]
    decide
  · -- liquid glass: pure-white pixel at (1,3) is fully attenuated
    have hz : inProcessZone bufGlass 2 1 3 = true := by decide
    have hpix : (removeLiquidGlassOutline bufGlass 2 200).data.get? 10 =
        some ⟨255, 255, 255, 0⟩ := by
      show (mapIdxFrom _ 0 bufGlass.data).get? 10 = _
      rw [get?_mapIdxFrom,
        show bufGlass.data.get? 10 = some ⟨255, 255, 255, 255⟩ from by decide]
      norm_num [hz, toU8Clamp,
        show bufGlass.width = 3 from rfl, show bufGlass.height = 5 from rfl]
    show ((removeLiquidGlassOutline bufGlass 2 200).data.getD 10 defPixel).a = 0
    rw [List.getD_eq_get? _ _ _, hpix]
    rfl

/-- A filter never raises the alpha of a fully transparent pixel above 0. -/
def alphaZeroPreserved (f : ImageData → ImageData) : Prop :=
  ∀ img i p, img.data.get? i = some p → p.a = 0 →
    ∃ q, (f img).data.get? i = some q ∧ q.a = 0

lemma smoothEdges_alphaZero : alphaZeroPreserved smoothEdges := by
  intro img i p hp hpa
  refine ⟨p, ?_, hpa⟩
  show (mapIdxFrom _ 0 img.data).get? i = some p
  rw [get?_mapIdxFrom, hp]
  simp [hpa]

lemma removeLightEdgeArtifacts_alphaZero :
    alphaZeroPreserved removeLightEdgeArtifacts := by
  intro img i p hp hpa
  refine ⟨p, ?_, hpa⟩
  show (mapIdxFrom _ 0 img.data).get? i = some p
  rw [get?_mapIdxFrom, hp]
  simp [hpa]

lemma erodePass_alphaZero : alphaZeroPreserved erodePass := by
  intro img i p hp hpa
  refine ⟨p, ?_, hpa⟩
  show (mapIdxFrom _ 0 img.data).get? i = some p
  rw [get?_mapIdxFrom, hp]
  simp [hpa]

lemma erodeEdges_alphaZero (n : ℕ) :
    alphaZeroPreserved (fun img => erodeEdges img n) := by
  induction n with
  | zero => exact fun img i p hp hpa => ⟨p, hp, hpa⟩
  | succ m ih =>
    intro img i p hp hpa
    obtain ⟨q, hq, hqa⟩ := erodePass_alphaZero img i p hp hpa
    obtain ⟨r, hr, hra⟩ := ih (erodePass img) i q hq hqa
    refine ⟨r, ?_, hra⟩
    simpa [erodeEdges, Function.iterate_succ_apply] using hr

lemma aggStep_alphaZero (w h : ℕ) (d : List Pixel) (j i : ℕ) (q : Pixel)
    (hq : d.get? i = some q) (hqa : q.a = 0) :
    ∃ q', (aggStep w h d j).get? i = some q' ∧ q'.a = 0 := by
  simp only [aggStep]
  split_ifs with h1 h2
  · rcases Nat.decEq i j with hij | hij
    · rw [List.get?_set_ne _ _ (fun hji => hij hji.symm)]
      exact ⟨q, hq, hqa⟩
    · subst hij
      have hlen : i < d.length := (List.get?_eq_some.mp hq).1
      rw [List.get?_set_eq_of_lt _ hlen]
      exact ⟨_, rfl, rfl⟩
  · exact ⟨q, hq, hqa⟩
  · exact ⟨q, hq, hqa⟩

lemma foldl_aggStep_alphaZero (w h : ℕ) :
    ∀ (idxs : List ℕ) (d : List Pixel) (i : ℕ) (q : Pixel),
      d.get? i = some q → q.a = 0 →
      ∃ q', (idxs.foldl (aggStep w h) d).get? i = some q' ∧ q'.a = 0
  | [], d, i, q, hq, hqa => ⟨q, hq, hqa⟩
  | j :: rest, d, i, q, hq, hqa => by
    obtain ⟨q', hq', hqa'⟩ := aggStep_alphaZero w h d j i q hq hqa
    simpa [List.foldl_cons] using
      foldl_aggStep_alphaZero w h rest (aggStep w h d j) i q' hq' hqa'

lemma aggressiveEdgeCleanup_alphaZero :
    alphaZeroPreserved aggressiveEdgeCleanup := by
  intro img i p hp hpa
  exact foldl_aggStep_alphaZero img.width img.height
    (List.range (img.width * img.height)) img.data i p hp hpa

lemma removeLiquidGlassOutline_alphaZero (w : ℕ) (b : ℚ) :
    alphaZeroPreserved (fun img => removeLiquidGlassOutline img w b) := by
  intro img i p hp hpa
  refine ⟨p, ?_, hpa⟩
  show (mapIdxFrom _ 0 img.data).get? i = some p
  rw [get?_mapIdxFrom, hp]
  simp [hpa]

/-- Claim C2 as amended: every one of the five edge filters preserves full
transparency (no filter ever raises a 0-alpha pixel above 0), and
light-edge removal never modifies a pixel all of whose 8 immediate
neighbors have nonzero alpha; the corresponding interior-protection
property does NOT hold for the other four filters (see the
counterexample), whose modification sets are wider than the pixels with a
fully transparent 8-neighbor. -/
theorem edge_filters_alphaZero_and_lightEdges_interior :
    alphaZeroPreserved smoothEdges ∧
    alphaZeroPreserved removeLightEdgeArtifacts ∧
    (∀ n, alphaZeroPreserved (fun img => erodeEdges img n)) ∧
    alphaZeroPreserved aggressiveEdgeCleanup ∧
    (∀ w b, alphaZeroPreserved (fun img => removeLiquidGlassOutline img w b)) ∧
    (∀ (img : ImageData) (x y : ℕ), x < img.width →
      (∀ o ∈ offsets8, alphaAt img ((x : ℤ) + o.1) ((y : ℤ) + o.2) ≠ 0) →
      (removeLightEdgeArtifacts img).data.get? (y * img.width + x) =
        img.data.get? (y * img.width + x)) := by
  refine ⟨smoothEdges_alphaZero, removeLightEdgeArtifacts_alphaZero,
    erodeEdges_alphaZero, aggressiveEdgeCleanup_alphaZero,
    removeLiquidGlassOutline_alphaZero, ?_⟩
  intro img x y hx hnb
  show (mapIdxFrom _ 0 img.data).get? (y * img.width + x) = _
  rw [get?_mapIdxFrom]
  cases hp : img.data.get? (y * img.width + x) with
  | none => rfl
  | some p =>
    have hw : 0 < img.width := lt_of_le_of_lt (Nat.zero_le x) hx
    have hmod : (y * img.width + x) % img.width = x := by
      rw [Nat.mul_comm, Nat.mul_add_mod, Nat.mod_eq_of_lt hx]
    have hdiv : (y * img.width + x) / img.width = y := by
      calc (y * img.width + x) / img.width
          = (img.width * y + x) / img.width := by rw [Nat.mul_comm]
        _ = y + x / img.width := Nat.mul_add_div hw y x
        _ = y := by rw [Nat.div_eq_of_lt hx, Nat.add_zero]
    have hnt : hasTransparentNeighbor img x y = false := by
      simp only [hasTransparentNeighbor, List.any_eq_false, beq_iff_eq]
      exact fun o ho => hnb o ho
    have hoe : isOuterEdge img x y = false := by
      simp [isOuterEdge, hnt]
    simp [Nat.zero_add, hmod, hdiv, hoe]

/-- Concrete instantiation of the amended claim C2: a fully transparent
1×1 buffer stays fully transparent under smoothing, and the interior
pixel (1,1) of `bufSmooth` (all its neighbors opaque) is untouched by
light-edge removal. -/
theorem edge_filters_alphaZero_and_lightEdges_interior_witness :
    ((⟨1, 1, [⟨0, 0, 0, 0⟩]⟩ : ImageData).data.get? 0 = some ⟨0, 0, 0, 0⟩ ∧
      (∃ q, (smoothEdges ⟨1, 1, [⟨0, 0, 0, 0⟩]⟩).data.get? 0 = some q ∧
        q.a = 0)) ∧
    (removeLightEdgeArtifacts bufSmooth).data.get? (1 * bufSmooth.width + 1) =
      bufSmooth.data.get? (1 * bufSmooth.width + 1) :=
  ⟨⟨rfl, edge_filters_alphaZero_and_lightEdges_interior.1
      ⟨1, 1, [⟨0, 0, 0, 0⟩]⟩ 0 ⟨0, 0, 0, 0⟩ rfl rfl⟩,
    edge_filters_alphaZero_and_lightEdges_interior.2.2.2.2.2
      bufSmooth 1 1 (by decide) (by decide)⟩

/-! ## Color-key matting and the pipeline orchestrator -/

/-- Per-pixel body of `removeByColor` (`backgroundRemoval.ts` lines
192–209): mean absolute channel difference against the target color;
below the (unscaled) threshold the pixel becomes fully transparent,
otherwise the alpha is the minimum of the old alpha and
`min(255, (diff/threshold)*255)`. -/
def removeByColorPixel (target : Rgb) (thr : ℚ) (p : Pixel) : Pixel :=
  let rDiff : ℤ := |(p.r : ℤ) - (target.r : ℤ)|
  let gDiff : ℤ := |(p.g : ℤ) - (target.g : ℤ)|
  let bDiff : ℤ := |(p.b : ℤ) - (target.b : ℤ)|
  let totalDiff : ℚ := ((rDiff + gDiff + bDiff : ℤ) : ℚ) / 3
  if totalDiff < thr then { p with a := 0 }
  else
    let alpha : ℚ := min 255 (totalDiff / thr * 255)
    { p with a := toU8Clamp (min (p.a : ℚ) alpha) }

/-- `removeByColor(imageData, targetColor, threshold)`
(`backgroundRemoval.ts` lines 185–210). -/
def removeByColor (img : ImageData) (target : Rgb) (thr : ℚ) : ImageData :=
  { img with data := img.data.map (removeByColorPixel target thr) }

/-- `detectBackgroundColor` (`backgroundRemoval.ts` lines 215–247):
average of the four corner pixels, rounded per channel. -/
def detectBackgroundColor (img : ImageData) : Rgb :=
  let w := img.width
  let h := img.height
  let samples : List ℕ := [0, w - 1, (h - 1) * w, (h - 1) * w + (w - 1)]
  let r := (samples.map (fun j => (img.data.getD j defPixel).r)).sum
  let g := (samples.map (fun j => (img.data.getD j defPixel).g)).sum
  let b := (samples.map (fun j => (img.data.getD j defPixel).b)).sum
  ⟨(round ((r : ℚ) / 4)).toNat, (round ((g : ℚ) / 4)).toNat,
    (round ((b : ℚ) / 4)).toNat⟩

/-- The `ProcessingOptions` record (`backgroundRemoval.ts` lines 5–15);
`targetBackgroundColor` is modelled as an already-parsed RGB triple
(`hexToRgb` is applied by the orchestrator before use). -/
structure ProcessingOptions where
  threshold : ℚ
  edgeSmoothing : Bool
  targetBackgroundColor : Option Rgb
  edgeCleanup : Bool
  erodePixels : ℕ
  removeLightEdges : Bool
  removeLiquidGlass : Bool
  glassOutlineWidth : ℕ
  glassBrightness : ℚ

/-- The pixel-level core of `removeBackground` (`backgroundRemoval.ts`
lines 52–100): matting (reference mode if a reference is supplied, else
color key on the explicit color, else color key on the auto-detected
corner average), followed by the five gated refinement filters in their
fixed order. -/
def removeBackground (img : ImageData) (referenceBackground : Option ImageData)
    (opts : ProcessingOptions) : ImageData :=
  let afterMatte :=
    match referenceBackground with
    | some bg => subtractBackground img bg opts.threshold
    | none =>
      match opts.targetBackgroundColor with
      | some rgb => removeByColor img rgb opts.threshold
      | none => removeByColor img (detectBackgroundColor img) opts.threshold
  let afterSmooth :=
    if opts.edgeSmoothing then smoothEdges afterMatte else afterMatte
  let afterLight :=
    if opts.removeLightEdges then removeLightEdgeArtifacts afterSmooth
    else afterSmooth
  let afterErode :=
    if 0 < opts.erodePixels then erodeEdges afterLight opts.erodePixels
    else afterLight
  let afterCleanup :=
    if opts.edgeCleanup then aggressiveEdgeCleanup afterErode else afterErode
  if opts.removeLiquidGlass then
    removeLiquidGlassOutline afterCleanup opts.glassOutlineWidth
      opts.glassBrightness
  else afterCleanup

/-- Claim C7: one `removeBackground` call is exactly the matte step
(reference mode when a reference is supplied, otherwise color key on the
explicit target color, otherwise color key on the detected corner
average) followed by the five refinement filters in the fixed order
smoothing → light-edge removal → erosion → aggressive cleanup →
liquid-glass removal, each applied iff its option is active, each
consuming the previous step's output. -/
theorem removeBackground_pipeline_order (img : ImageData)
    (ref : Option ImageData) (opts : ProcessingOptions) :
    removeBackground img ref opts =
      (fun d => if opts.removeLiquidGlass then
        removeLiquidGlassOutline d opts.glassOutlineWidth opts.glassBrightness
        else d)
      ((fun d => if opts.edgeCleanup then aggressiveEdgeCleanup d else d)
      ((fun d => if 0 < opts.erodePixels then erodeEdges d opts.erodePixels
        else d)
      ((fun d => if opts.removeLightEdges then removeLightEdgeArtifacts d
        else d)
      ((fun d => if opts.edgeSmoothing then smoothEdges d else d)
      (match ref with
        | some bg => subtractBackground img bg opts.threshold
        | none =>
          match opts.targetBackgroundColor with
          | some rgb => removeByColor img rgb opts.threshold
          | none =>
            removeByColor img (detectBackgroundColor img) opts.threshold))))) :=
  rfl

lemma toU8Clamp_natCast (n : ℕ) (h : n ≤ 255) : toU8Clamp (n : ℚ) = n := by
  simp only [toU8Clamp, roundTiesEven]
  split_ifs with h1 h2 h3 h4 h5 <;>
    simp_all [Int.floor_natCast] <;> omega

/-- Claim C10: color-key matting is exactly binary — with a positive
threshold, a pixel whose mean absolute channel difference from the target
is below the threshold gets alpha 0 (RGB kept), and any other pixel is
left completely unchanged, because `min(255, (diff/threshold)*255)`
evaluates to 255 once `diff ≥ threshold` and taking the minimum with the
existing alpha is then the identity. -/
theorem removeByColor_binary (img : ImageData) (target : Rgb) (thr : ℚ)
    (hthr : 0 < thr) (i : ℕ) (p : Pixel) (hp : img.data.get? i = some p)
    (hpa : p.a ≤ 255) :
    (removeByColor img target thr).data.get? i =
      some (if ((|(p.r : ℤ) - (target.r : ℤ)| + |(p.g : ℤ) - (target.g : ℤ)|
          + |(p.b : ℤ) - (target.b : ℤ)| : ℤ) : ℚ) / 3 < thr
        then { p with a := 0 } else p) := by
  show (img.data.map (removeByColorPixel target thr)).get? i = _
  rw [List.get?_map, hp]
  simp only [Option.map_some']
  congr 1
  simp only [removeByColorPixel]
  split_ifs with hlt
  · rfl
  · have hge : thr ≤ ((|(p.r : ℤ) - (target.r : ℤ)| + |(p.g : ℤ) - (target.g : ℤ)|
        + |(p.b : ℤ) - (target.b : ℤ)| : ℤ) : ℚ) / 3 := le_of_not_lt hlt
    have h255 : (255 : ℚ) ≤ ((|(p.r : ℤ) - (target.r : ℤ)| + |(p.g : ℤ) - (target.g : ℤ)|
        + |(p.b : ℤ) - (target.b : ℤ)| : ℤ) : ℚ) / 3 / thr * 255 := by
      have hone : (1 : ℚ) ≤ ((|(p.r : ℤ) - (target.r : ℤ)| + |(p.g : ℤ) - (target.g : ℤ)|
          + |(p.b : ℤ) - (target.b : ℤ)| : ℤ) : ℚ) / 3 / thr :=
        (one_le_div hthr).mpr hge
      nlinarith
    rw [min_eq_left h255]
    have hmin : min ((p.a : ℚ)) (255 : ℚ) = (p.a : ℚ) :=
      min_eq_left (by exact_mod_cast hpa)
    rw [hmin, toU8Clamp_natCast p.a hpa]

/-- Concrete instantiation of claim C10: a near-target pixel is fully
cleared at threshold 30. -/
theorem removeByColor_binary_witness :
    (removeByColor ⟨1, 1, [⟨10, 10, 10, 200⟩]⟩ ⟨0, 0, 0⟩ 30).data.get? 0 =
      some ⟨10, 10, 10, 0⟩ :=
  (removeByColor_binary ⟨1, 1, [⟨10, 10, 10, 200⟩]⟩ ⟨0, 0, 0⟩ 30
    (by norm_num) 0 ⟨10, 10, 10, 200⟩ rfl (by decide)).trans (by norm_num)

/-! ## Batch orchestration (the `BatchProcessor` component) -/

/-- Status of one batch item (`ProcessedFile.status`). -/
inductive FileStatus
  | pending
  | processing
  | done
  | error
  deriving DecidableEq, Repr

/-- One batch item, `ProcessedFile` of the batch component: the original
input, the processed artifact and preview when done, the status, and the
error message when failed. `α` abstracts the input `File`, `β` the output
`Blob`. -/
structure ProcessedFile (α β : Type) where
  original : α
  processed : Option β
  preview : Option String
  status : FileStatus
  error : Option String

/-- Net effect of one `processFile` call on its file entry: the
`removeBackground`/`createPreview` pipeline is abstracted into its
outcome — `Except.ok` with the blob and preview, or `Except.error` with
the human-readable message extracted from the thrown value. On success
the entry becomes `done` with the results attached; on failure the
`catch` block sets the status to `error` and stores the message,
touching nothing else. -/
def processFile (f : ProcessedFile α β) (outcome : Except String (β × String)) :
    ProcessedFile α β :=
  match outcome with
  | .ok r =>
    { f with processed := some r.1, preview := some r.2, status := .done }
  | .error m => { f with status := .error, error := some m }

/-- Is a file picked up by the batch loop (`status === 'pending' ||
status === 'error'`)? -/
def eligibleStatus (s : FileStatus) : Bool :=
  s == .pending || s == .error

/-- One iteration of the `startBatchProcessing` loop at index `i`:
eligibility is decided on the `files` closure snapshot, and the update
(functional `setFiles`) rewrites only index `i` of the current state. -/
def batchStep (outcomes : ℕ → Except String (β × String))
    (snapshot : List (ProcessedFile α β)) (cur : List (ProcessedFile α β))
    (i : ℕ) : List (ProcessedFile α β) :=
  match snapshot.get? i with
  | some f =>
    if eligibleStatus f.status then
      match cur.get? i with
      | some g => cur.set i (processFile g (outcomes i))
      | none => cur
    else cur
  | none => cur

/-- `startBatchProcessing`: process indices 0, 1, … sequentially; the
 per-index outcome function abstracts each image's processing result. -/
def startBatchProcessing (files : List (ProcessedFile α β))
    (outcomes : ℕ → Except String (β × String)) :
    List (ProcessedFile α β) :=
  (List.range files.length).foldl (batchStep outcomes files) files

lemma batchStep_get?_ne (outcomes : ℕ → Except String (β × String))
    (snapshot cur : List (ProcessedFile α β)) (i j : ℕ) (hij : j ≠ i) :
    (batchStep outcomes snapshot cur i).get? j = cur.get? j := by
  unfold batchStep
  cases snapshot.get? i with
  | none => rfl
  | some f =>
    simp only
    split_ifs with h
    · cases hc : cur.get? i with
      | none => rfl
      | some g =>
        simp only
        exact List.get?_set_ne _ _ (fun h => hij h.symm)
    · rfl

lemma batchStep_length (outcomes : ℕ → Except String (β × String))
    (snapshot cur : List (ProcessedFile α β)) (i : ℕ) :
    (batchStep outcomes snapshot cur i).length = cur.length := by
  unfold batchStep
  cases snapshot.get? i with
  | none => rfl
  | some f =>
    simp only
    split_ifs with h
    · cases hc : cur.get? i with
      | none => rfl
      | some g => simp
    · rfl

lemma foldl_batchStep_get?_notMem (outcomes : ℕ → Except String (β × String))
    (snapshot : List (ProcessedFile α β)) :
    ∀ (idxs : List ℕ) (cur : List (ProcessedFile α β)) (j : ℕ),
      j ∉ idxs → (idxs.foldl (batchStep outcomes snapshot) cur).get? j = cur.get? j
  | [], _, _, _ => rfl
  | i :: rest, cur, j, hj => by
    have hji : j ≠ i := fun h => hj (h ▸ List.mem_cons_self i rest)
    have hrest : j ∉ rest := fun h => hj (List.mem_cons_of_mem i h)
    rw [List.foldl_cons,
      foldl_batchStep_get?_notMem outcomes snapshot rest _ j hrest,
      batchStep_get?_ne outcomes snapshot cur i j hji]

lemma foldl_batchStep_get?_mem (outcomes : ℕ → Except String (β × String))
    (snapshot : List (ProcessedFile α β)) :
    ∀ (idxs : List ℕ) (cur : List (ProcessedFile α β)) (j : ℕ) (f : ProcessedFile α β),
      j ∈ idxs → idxs.Nodup → snapshot.get? j = some f → cur.get? j = some f →
      (idxs.foldl (batchStep outcomes snapshot) cur).get? j =
        some (if eligibleStatus f.status then processFile f (outcomes j) else f)
  | [], _, j, _, hj, _, _, _ => absurd hj (List.not_mem_nil j)
  | i :: rest, cur, j, f, hj, hnd, hsnap, hcur => by
    rw [List.foldl_cons]
    rcases List.mem_cons.mp hj with hji | hjrest
    · subst hji
      have hnotrest : j ∉ rest := (List.nodup_cons.mp hnd).1
      rw [foldl_batchStep_get?_notMem outcomes snapshot rest _ j hnotrest]
      unfold batchStep
      rw [hsnap]
      simp only
      by_cases he : eligibleStatus f.status
      · rw [if_pos he, hcur]
        simp only [if_pos he]
        have hlen : j < cur.length := (List.get?_eq_some.mp hcur).1
        exact List.get?_set_eq_of_lt _ hlen
      · rw [if_neg he, hcur, if_neg he]
    · have hji : j ≠ i := fun h => (List.nodup_cons.mp hnd).1 (h ▸ hjrest)
      exact foldl_batchStep_get?_mem outcomes snapshot rest _ j f hjrest
        (List.nodup_cons.mp hnd).2 hsnap
        ((batchStep_get?_ne outcomes snapshot cur i j hji).trans hcur)

/-- Claim C9: per-image isolation of batch processing. The final state of
entry `i` depends only on that entry's own snapshot state and its own
processing outcome: an eligible entry whose processing fails ends as
`status = error` with the message attached (and is otherwise untouched),
an eligible entry whose processing succeeds ends as `done`, and no
entry's result is affected by any other entry's outcome — a failure
never propagates to the rest of the batch. -/
theorem startBatchProcessing_isolation (files : List (ProcessedFile α β))
    (outcomes : ℕ → Except String (β × String)) (i : ℕ) :
    (startBatchProcessing files outcomes).get? i =
      (files.get? i).map (fun f =>
        if eligibleStatus f.status then processFile f (outcomes i) else f) := by
  unfold startBatchProcessing
  cases hf : files.get? i with
  | none =>
    have hi : files.length ≤ i := List.get?_eq_none.mp hf
    have : i ∉ List.range files.length := by
      simp only [List.mem_range]
      omega
    rw [foldl_batchStep_get?_notMem outcomes files _ _ i this, hf]
    rfl
  | some f =>
    have hi : i < files.length := (List.get?_eq_some.mp hf).1
    rw [foldl_batchStep_get?_mem outcomes files (List.range files.length)
      files i f (List.mem_range.mpr hi) (List.nodup_range _) hf hf]
    rfl

/-! ## Gaussian alpha blur (`EdgeLab.tsx`, `gaussianMethod`) -/

/-- Un-normalized Gaussian kernel entry of `generateGaussianKernel`
(`EdgeLab.tsx` lines 735–755): `exp(-(x²+y²)/(2σ²))` with `σ = radius/2`. -/
noncomputable def gaussianKernelValue (radius : ℕ) (kx ky : ℤ) : ℝ :=
  Real.exp (-((kx : ℝ) ^ 2 + (ky : ℝ) ^ 2) / (2 * ((radius : ℝ) / 2) ^ 2))

/-- The kernel index window `[-radius, radius]²`. -/
def kernelWindow (radius : ℕ) : Finset (ℤ × ℤ) :=
  Finset.Icc (-(radius : ℤ)) (radius : ℤ) ×ˢ Finset.Icc (-(radius : ℤ)) (radius : ℤ)

/-- The normalized kernel (each entry divided by the total sum). -/
noncomputable def generateGaussianKernel (radius : ℕ) (kx ky : ℤ) : ℝ :=
  gaussianKernelValue radius kx ky /
    ∑ j in kernelWindow radius, gaussianKernelValue radius j.1 j.2

/-- The convolved alpha at (x,y): weighted average of the snapshot alphas
over the in-bounds part of the kernel window, renormalized by the sum of
the in-bounds weights (`sum / weightSum` in the source). -/
noncomputable def gaussianBlurredAlpha (img : ImageData) (radius : ℕ)
    (x y : ℕ) : ℝ :=
  let inB := (kernelWindow radius).filter (fun k =>
    0 ≤ (x : ℤ) + k.1 ∧ (x : ℤ) + k.1 < (img.width : ℤ) ∧
    0 ≤ (y : ℤ) + k.2 ∧ (y : ℤ) + k.2 < (img.height : ℤ))
  (∑ k in inB, (alphaAt img ((x : ℤ) + k.1) ((y : ℤ) + k.2) : ℝ) *
      generateGaussianKernel radius k.1 k.2) /
    ∑ k in inB, generateGaussianKernel radius k.1 k.2

/-- One pass of `gaussianMethod` (`EdgeLab.tsx` lines 693–730): pixels
whose snapshot alpha is strictly between 10 and 245 get the rounded
convolved alpha; every other pixel, and every R,G,B channel, is kept. -/
noncomputable def gaussianPass (img : ImageData) (radius : ℕ) : ImageData :=
  { img with data := mapIdxFrom (fun i p =>
      let x := i % img.width
      let y := i / img.width
      if x < img.width ∧ y < img.height ∧ 10 < p.a ∧ p.a < 245 then
        { p with a := clampByte (round (gaussianBlurredAlpha img radius x y)) }
      else p) 0 img.data }

/-- `gaussianMethod(img, radius, passes)` (`EdgeLab.tsx` lines 677–733):
`passes` iterated blur passes, each working on a fresh alpha snapshot. -/
noncomputable def gaussianMethod (img : ImageData) (radius passes : ℕ) :
    ImageData :=
  (fun d => gaussianPass d radius)^[passes] img

lemma gaussianPass_rgb (img : ImageData) (radius : ℕ) (i : ℕ) :
    ((gaussianPass img radius).data.get? i).map (fun p => (p.r, p.g, p.b)) =
      (img.data.get? i).map (fun p => (p.r, p.g, p.b)) := by
  show ((mapIdxFrom _ 0 img.data).get? i).map _ = _
  rw [get?_mapIdxFrom]
  cases img.data.get? i with
  | none => rfl
  | some p =>
    simp only [Option.map_some']
    split_ifs <;> rfl

/-- Claim C8: structure of the Gaussian alpha blur. (a) `gaussianMethod`
is the `passes`-fold iteration of the single blur pass. (b) In one pass a
pixel is modified exactly when its snapshot alpha lies strictly between
10 and 245, in which case its alpha becomes the rounded average of the
snapshot alphas weighted by the normalized Gaussian kernel with
`sigma = radius/2`, renormalized over the in-bounds window entries; all
other pixels are unchanged. (c) The kernel is normalized: its entries
sum to 1. (d) The R,G,B channels of every pixel survive any number of
passes unchanged. -/
theorem gaussianMethod_spec :
    (∀ (img : ImageData) (radius passes : ℕ),
      gaussianMethod img radius passes =
        (fun d => gaussianPass d radius)^[passes] img) ∧
    (∀ (img : ImageData) (radius i : ℕ),
      (gaussianPass img radius).data.get? i =
        (img.data.get? i).map (fun p =>
          if i % img.width < img.width ∧ i / img.width < img.height ∧
              10 < p.a ∧ p.a < 245 then
            { p with a := clampByte (round (
              (∑ k in (kernelWindow radius).filter (fun k =>
                  0 ≤ ((i % img.width : ℕ) : ℤ) + k.1 ∧
                  ((i % img.width : ℕ) : ℤ) + k.1 < (img.width : ℤ) ∧
                  0 ≤ ((i / img.width : ℕ) : ℤ) + k.2 ∧
                  ((i / img.width : ℕ) : ℤ) + k.2 < (img.height : ℤ)),
                (alphaAt img (((i % img.width : ℕ) : ℤ) + k.1)
                    (((i / img.width : ℕ) : ℤ) + k.2) : ℝ) *
                  (Real.exp (-((k.1 : ℝ) ^ 2 + (k.2 : ℝ) ^ 2) /
                      (2 * ((radius : ℝ) / 2) ^ 2)) /
                    ∑ j in kernelWindow radius,
                      Real.exp (-((j.1 : ℝ) ^ 2 + (j.2 : ℝ) ^ 2) /
                        (2 * ((radius : ℝ) / 2) ^ 2)))) /
              ∑ k in (kernelWindow radius).filter (fun k =>
                  0 ≤ ((i % img.width : ℕ) : ℤ) + k.1 ∧
                  ((i % img.width : ℕ) : ℤ) + k.1 < (img.width : ℤ) ∧
                  0 ≤ ((i / img.width : ℕ) : ℤ) + k.2 ∧
                  ((i / img.width : ℕ) : ℤ) + k.2 < (img.height : ℤ)),
                Real.exp (-((k.1 : ℝ) ^ 2 + (k.2 : ℝ) ^ 2) /
                    (2 * ((radius : ℝ) / 2) ^ 2)) /
                  ∑ j in kernelWindow radius,
                    Real.exp (-((j.1 : ℝ) ^ 2 + (j.2 : ℝ) ^ 2) /
                      (2 * ((radius : ℝ) / 2) ^ 2)))) }
          else p)) ∧
    (∀ radius : ℕ,
      ∑ k in kernelWindow radius, generateGaussianKernel radius k.1 k.2 = 1) ∧
    (∀ (img : ImageData) (radius passes i : ℕ),
      ((gaussianMethod img radius passes).data.get? i).map
          (fun p => (p.r, p.g, p.b)) =
        (img.data.get? i).map (fun p => (p.r, p.g, p.b))) := by
  refine ⟨fun img radius passes => rfl, ?_, ?_, ?_⟩
  · intro img radius i
    show (mapIdxFrom _ 0 img.data).get? i = _
    rw [get?_mapIdxFrom]
    cases img.data.get? i with
    | none => rfl
    | some p =>
      simp only [Option.map_some', Nat.zero_add]
      rfl
  · intro radius
    have hpos : 0 < ∑ j in kernelWindow radius, gaussianKernelValue radius j.1 j.2 := by
      apply Finset.sum_pos (fun j _ => Real.exp_pos _)
      refine ⟨((0 : ℤ), (0 : ℤ)), ?_⟩
      simp [kernelWindow, Finset.mem_product, Finset.mem_Icc]
    simp only [generateGaussianKernel]
    rw [← Finset.sum_div]
    exact div_self (ne_of_gt hpos)
  · intro img radius passes i
    induction passes generalizing img with
    | zero => rfl
    | succ m ih =>
      have hstep : gaussianMethod img radius (m + 1) =
          gaussianMethod (gaussianPass img radius) radius m := by
        show (fun d => gaussianPass d radius)^[m + 1] img = _
        rw [Function.iterate_succ_apply]
        rfl
      rw [hstep, ih (gaussianPass img radius), gaussianPass_rgb]
